import Mathlib

/-!
Verification of the two-phase social-graph crawler (furry-radar).

The development shallowly embeds the program:

* `storage.py` (class `FurryNetworkDB`): an SQLite store of accounts and
  directed follow edges.  The store is modelled as a `DB` record holding the
  `users` table (a list of `Account` rows, keyed by `did`) and the `follows`
  table (a list of `Edge` rows, keyed by the ordered pair of dids).  SQLite's
  `INSERT OR REPLACE` deletes the conflicting row and appends the new one;
  `INSERT OR IGNORE` is a no-op on a primary-key conflict; `UPDATE ... WHERE`
  touches only matching rows.
* `bluesky_api.py` (class `BlueskyAPI`): the remote directory.  A `World`
  maps each actor to an optional profile and to paginated follow/follower
  fetches; `ConnFetch.fetched` models `get_all_follows`/`get_all_followers`,
  which accumulate pages and, when a page request raises, break and return
  the pages fetched so far.
* `main.py`: `phase1_mutuals_graph` and `phase2_expand_graph`, modelled as
  fuel-indexed state machines (`phase1Run`, `phase2Run`) over explicit BFS
  states.  Ghost fields (`enqLog`, `crawledLog`) record values the code
  itself computes at enqueue/crawl time; they never influence control flow.
-/

/-- A row of the `users` table (`storage.py`, `create_tables`). -/
structure Account where
  did : String
  handle : String
  displayName : Option String
  followersCount : Nat
  followsCount : Nat
  description : Option String
  crawled : Bool
  isMutualCore : Bool
deriving DecidableEq, Repr

/-- A row of the `follows` table (`storage.py`, `create_tables`). -/
structure Edge where
  followerDid : String
  followerHandle : String
  followingDid : String
  followingHandle : String
  isMutual : Bool
deriving DecidableEq, Repr

/-- The store: `users` and `follows` tables (`FurryNetworkDB`). -/
structure DB where
  users : List Account
  follows : List Edge
deriving DecidableEq, Repr

def emptyDB : DB := ⟨[], []⟩

/-- Row lookup by primary key `did` (the `SELECT ... WHERE did = ?` pattern). -/
def findUser (db : DB) (d : String) : Option Account :=
  db.users.find? (fun u => u.did == d)

/-- `FurryNetworkDB.user_exists`. -/
def userExists (db : DB) (d : String) : Bool :=
  (findUser db d).isSome

/-- The row written by `FurryNetworkDB.add_user`: merged field values
computed from the existing row, if any (keep existing data if new data is
`None`, or `0` for the two counts, and preserve the `crawled` /
`is_mutual_core` flags). -/
def mergedRow (db : DB) (did handle : String) (displayName : Option String)
    (followersCount followsCount : Nat) (description : Option String) : Account :=
  match findUser db did with
  | none => ⟨did, handle, displayName, followersCount, followsCount, description, false, false⟩
  | some u =>
      ⟨did, handle,
       if displayName = none ∧ u.displayName ≠ none then u.displayName else displayName,
       if followersCount = 0 ∧ 0 < u.followersCount then u.followersCount else followersCount,
       if followsCount = 0 ∧ 0 < u.followsCount then u.followsCount else followsCount,
       if description = none ∧ u.description ≠ none then u.description else description,
       u.crawled, u.isMutualCore⟩

/-- `FurryNetworkDB.add_user`: compute the merged row, then
`INSERT OR REPLACE` it (SQLite deletes the conflicting row and appends). -/
def addUser (db : DB) (did handle : String) (displayName : Option String)
    (followersCount followsCount : Nat) (description : Option String) : DB :=
  { db with users := db.users.filter (fun u => !(u.did == did)) ++
      [mergedRow db did handle displayName followersCount followsCount description] }

/-- Membership test for a directed edge by its primary key `(follower, following)`. -/
def edgeExists (db : DB) (f g : String) : Bool :=
  db.follows.any (fun e => e.followerDid == f && e.followingDid == g)

/-- Lookup of a directed edge by its primary key. -/
def findEdge (db : DB) (f g : String) : Option Edge :=
  db.follows.find? (fun e => e.followerDid == f && e.followingDid == g)

/-- `FurryNetworkDB.add_follow`: `INSERT OR IGNORE` on the primary key
`(follower_did, following_did)` — a duplicate directed edge is a silent no-op. -/
def addFollow (db : DB) (f fh g gh : String) (isMutual : Bool) : DB :=
  if edgeExists db f g then db
  else { db with follows := db.follows ++ [⟨f, fh, g, gh, isMutual⟩] }

/-- `FurryNetworkDB.mark_as_crawled`: `UPDATE users SET crawled = 1 WHERE did = ?`. -/
def markAsCrawled (db : DB) (d : String) : DB :=
  { db with users := db.users.map (fun u => if u.did = d then { u with crawled := true } else u) }

/-- `FurryNetworkDB.mark_as_mutual_core`: `UPDATE users SET is_mutual_core = 1 WHERE did = ?`. -/
def markAsMutualCore (db : DB) (d : String) : DB :=
  { db with users := db.users.map (fun u => if u.did = d then { u with isMutualCore := true } else u) }

/-- `FurryNetworkDB.is_crawled`: truthy iff a row exists and its `crawled`
column is 1 (the Python function returns `None` for a missing row, which is
falsy; the embedding returns `false`). -/
def isCrawled (db : DB) (d : String) : Bool :=
  match findUser db d with
  | some u => u.crawled
  | none => false

/-- Whether an account row exists and is flagged `is_mutual_core` (the join
condition `JOIN users u ON ... AND u.is_mutual_core = 1`). -/
def isCore (db : DB) (d : String) : Bool :=
  match findUser db d with
  | some u => u.isMutualCore
  | none => false

/-- `FurryNetworkDB.get_uncrawled_users` (no limit): table-scan of rows with
`crawled = 0`, returning `(did, handle)` pairs. -/
def getUncrawledUsers (db : DB) : List (String × String) :=
  (db.users.filter (fun u => !u.crawled)).map (fun u => (u.did, u.handle))

/-- `FurryNetworkDB.get_mutual_core_connection_count`: the number of distinct
dids linked to `d` by a follow edge in either direction whose user row is
flagged `is_mutual_core = 1` (`COUNT(DISTINCT connected_did)` over the
`UNION` of the two joins). -/
def coreCount (db : DB) (d : String) : Nat :=
  let inc := db.follows.filterMap
    (fun e => if e.followingDid = d ∧ isCore db e.followerDid then some e.followerDid else none)
  let out := db.follows.filterMap
    (fun e => if e.followerDid = d ∧ isCore db e.followingDid then some e.followingDid else none)
  ((inc ++ out).dedup).length

/-- A follow/follower list entry as returned by the directory API
(`resp.follows` / `resp.followers` elements). -/
structure FUser where
  did : String
  handle : String
  displayName : Option String
deriving DecidableEq, Repr

/-- A profile as returned by `BlueskyAPI.get_profile`. -/
structure Profile where
  did : String
  handle : String
  displayName : Option String
  followersCount : Nat
  followsCount : Nat
  description : Option String
deriving DecidableEq, Repr

/-- A paginated connection-list fetch.  `pages` are the provider's pages in
order; `failsAt = some k` means the request for page `k` raises (pages
`0, ..., k-1` were already accumulated). -/
structure ConnFetch where
  pages : List (List FUser)
  failsAt : Option Nat
deriving Repr

/-- `BlueskyAPI.get_all_follows` / `get_all_followers`: loop over pages,
extending the accumulator; on an exception, break and return what was
accumulated so far. -/
def ConnFetch.fetched (c : ConnFetch) : List FUser :=
  (match c.failsAt with
   | none => c.pages
   | some k => c.pages.take k).flatten

/-- The remote directory: per-actor profile and connection-list responses.
A `none` profile models a `get_profile` call that raises. -/
structure World where
  profile : String → Option Profile
  followsOf : String → ConnFetch
  followersOf : String → ConnFetch

/-- Python-dict key bookkeeping: append a key if not already present
(first-insertion order, as `dict` iteration order). -/
def insertKey (l : List String) (x : String) : List String :=
  if x ∈ l then l else l ++ [x]

/-- The keys of a Python dict built by successive assignments, in order. -/
def keysOf (l : List String) : List String :=
  l.foldl insertKey []

/-- `BlueskyAPI.find_mutuals`, restricted to the mutual identifiers: the
(deduplicated) follow-set dids that also occur in the follower-set dids
(`follows_set & followers_set`). -/
def mutualDids (w : World) (a : String) : List String :=
  (keysOf ((w.followsOf a).fetched.map FUser.did)).filter
    (fun d => decide (d ∈ (w.followersOf a).fetched.map FUser.did))

/-- The truthiness test `if max_users and len(...) >= max_users` guarding the
crawl budget (`None` and `0` are both falsy in Python). -/
def budgetHit (m : Option Nat) (n : Nat) : Bool :=
  match m with
  | none => false
  | some k => decide (k ≠ 0) && decide (k ≤ n)

/-- The in-memory state of a `phase1_mutuals_graph` run: the store, the
`to_process` queue, the `processed` set (as a duplicate-free list), and a
ghost log of every post-seed enqueue `(enqueued did, did being processed)`. -/
structure P1State where
  db : DB
  queue : List String
  processed : List String
  enqLog : List (String × String)
deriving Repr

/-- The store mutations of one successful Phase 1 crawl step before the
final flag marks (`main.py` lines 58-114): upsert the fetched profile, then
for every follow upsert it and record the edge `(current → follow)` with
`is_mutual` iff the follow is in the computed mutual set, then for every
follower upsert it and, unless it was already seen in the follow set,
record the edge `(follower → current)` with `is_mutual = false`. -/
def phase1Db3 (w : World) (db : DB) (current : String) (p : Profile) : DB :=
  let db1 := addUser db p.did p.handle p.displayName p.followersCount p.followsCount p.description
  let follows := (w.followsOf current).fetched
  let mutuals := mutualDids w current
  let db2 := follows.foldl (fun d f =>
      addFollow (addUser d f.did f.handle f.displayName 0 0 none)
        current p.handle f.did f.handle (decide (f.did ∈ mutuals))) db1
  let followsDids := follows.map FUser.did
  (w.followersOf current).fetched.foldl (fun d f =>
      let d1 := addUser d f.did f.handle f.displayName 0 0 none
      if decide (f.did ∈ followsDids) then d1
      else addFollow d1 f.did f.handle current p.handle false) db2

/-- The identifiers a Phase 1 step appends to the frontier (`main.py` lines
118-121): the computed mutuals that are neither in `processed` nor marked
crawled in the (just-mutated) store. -/
def phase1Enqueued (w : World) (db : DB) (current : String) (processed : List String)
    (p : Profile) : List String :=
  (mutualDids w current).filter
    (fun x => !(decide (x ∈ processed)) && !(isCrawled (phase1Db3 w db current p) x))

/-- The body of one successful Phase 1 crawl step (`main.py` lines 54-126):
mutate the store, enqueue the qualifying mutuals, mark the account crawled
and core member, and add it to `processed` (logging the enqueues). -/
def phase1Body (w : World) (db : DB) (current : String) (rest processed : List String)
    (log : List (String × String)) (p : Profile) : P1State :=
  ⟨markAsMutualCore (markAsCrawled (phase1Db3 w db current p) current) current,
   rest ++ phase1Enqueued w db current processed p,
   processed ++ [current],
   log ++ (phase1Enqueued w db current processed p).map (fun x => (x, current))⟩

/-- The Phase 1 BFS loop (`main.py` lines 34-133), fuel-indexed: while the
queue is non-empty, stop if the budget is hit, skip already-processed or
already-crawled heads, skip (with no store mutation) heads whose profile
fetch fails, and otherwise run the crawl body. -/
def phase1Run (w : World) (m : Option Nat) : Nat → P1State → P1State
  | 0, s => s
  | fuel + 1, s =>
    match s.queue with
    | [] => s
    | current :: rest =>
      if budgetHit m s.processed.length then s
      else if current ∈ s.processed ∨ isCrawled s.db current then
        phase1Run w m fuel { s with queue := rest }
      else
        match w.profile current with
        | none => phase1Run w m fuel { s with queue := rest }
        | some p =>
          phase1Run w m fuel (phase1Body w s.db current rest s.processed s.enqLog p)

/-- `phase1_mutuals_graph`: run the loop from frontier `[seed]` with empty
`processed`. -/
def phase1 (w : World) (db : DB) (seed : String) (m : Option Nat) (fuel : Nat) : P1State :=
  phase1Run w m fuel ⟨db, [seed], [], []⟩

/-- The in-memory state of a `phase2_expand_graph` run: the store, the
`to_process` queue, the `processed` set, the `crawled_count` counter, a
ghost log of every enqueue decision `(did, core-connection count computed
at that decision)`, and a ghost log of the accounts crawled this run. -/
structure P2State where
  db : DB
  queue : List String
  processed : List String
  crawledCount : Nat
  enqLog : List (String × Nat)
  crawledLog : List String
deriving Repr

/-- One iteration of the Phase 2 candidate scan (`main.py` lines 260-282):
skip the connection did if already processed, already in the queue, or
already crawled; otherwise recompute its core-connection count against the
current store and append it to the queue (logging the count) iff the count
meets the threshold. -/
def p2Step (db : DB) (processed : List String) (t : Nat)
    (acc : List String × List (String × Nat)) (c : String) :
    List String × List (String × Nat) :=
  if decide (c ∈ processed) then acc
  else if decide (c ∈ acc.1) then acc
  else if isCrawled db c then acc
  else
    let n := coreCount db c
    if t ≤ n then (acc.1 ++ [c], acc.2 ++ [(c, n)]) else acc

/-- The candidate scan of one Phase 2 step over all distinct connection
identifiers: fold `p2Step` over the queue-and-log accumulator. -/
def p2Scan (db : DB) (processed : List String) (t : Nat) (conns : List String)
    (acc : List String × List (String × Nat)) : List String × List (String × Nat) :=
  conns.foldl (p2Step db processed t) acc

/-- The store mutations of one successful Phase 2 crawl step before the
final crawled mark (`main.py` lines 204-249): upsert the fetched profile,
then record all follows and followers, stub-upserting only accounts not yet
in the store, with every edge recorded as `is_mutual = false`. -/
def phase2Db3 (w : World) (db : DB) (current : String) (p : Profile) : DB :=
  let db1 := addUser db p.did p.handle p.displayName p.followersCount p.followsCount p.description
  let db2 := (w.followsOf current).fetched.foldl (fun d f =>
      let d1 := if userExists d f.did then d else addUser d f.did f.handle f.displayName 0 0 none
      addFollow d1 current p.handle f.did f.handle false) db1
  (w.followersOf current).fetched.foldl (fun d f =>
      let d1 := if userExists d f.did then d else addUser d f.did f.handle f.displayName 0 0 none
      addFollow d1 f.did f.handle current p.handle false) db2

/-- The distinct connection identifiers of one Phase 2 step, in Python dict
insertion order (`temp_connections`, follows then followers). -/
def phase2Conns (w : World) (current : String) : List String :=
  keysOf ((w.followsOf current).fetched.map FUser.did ++
    (w.followersOf current).fetched.map FUser.did)

/-- The body of one successful Phase 2 crawl step (`main.py` lines 202-299):
mutate the store, scan the distinct connections for new threshold-qualified
candidates, mark the account crawled, add it to `processed`, and bump
`crawled_count`. -/
def phase2Body (w : World) (db : DB) (current : String) (rest processed : List String)
    (cc : Nat) (log : List (String × Nat)) (clog : List String) (t : Nat) (p : Profile) : P2State :=
  let scanned := p2Scan (phase2Db3 w db current p) processed t (phase2Conns w current) (rest, log)
  ⟨markAsCrawled (phase2Db3 w db current p) current,
   scanned.1, processed ++ [current], cc + 1, scanned.2, clog ++ [current]⟩

/-- The Phase 2 BFS loop (`main.py` lines 183-299), fuel-indexed: stop on
budget (against `crawled_count`), skip processed/crawled heads, and on a
profile-fetch failure add the head to `processed` (store untouched) and
continue; otherwise run the crawl body. -/
def phase2Run (w : World) (t : Nat) (m : Option Nat) : Nat → P2State → P2State
  | 0, s => s
  | fuel + 1, s =>
    match s.queue with
    | [] => s
    | current :: rest =>
      if budgetHit m s.crawledCount then s
      else if current ∈ s.processed ∨ isCrawled s.db current then
        phase2Run w t m fuel { s with queue := rest }
      else
        match w.profile current with
        | none => phase2Run w t m fuel { s with queue := rest, processed := s.processed ++ [current] }
        | some p =>
          phase2Run w t m fuel
            (phase2Body w s.db current rest s.processed s.crawledCount s.enqLog s.crawledLog t p)

/-- The initial Phase 2 frontier entries (`main.py` lines 164-176): scan
the uncrawled users in table order and keep those whose core-connection
count meets the threshold, paired with the count computed at the decision. -/
def p2InitPairs (db : DB) (t : Nat) : List (String × Nat) :=
  (getUncrawledUsers db).filterMap (fun dh =>
    let c := coreCount db dh.1
    if t ≤ c then some (dh.1, c) else none)

/-- The initial Phase 2 state (`main.py` lines 156-181): the qualifying
uncrawled users form the frontier; `processed` is empty and
`crawled_count` is zero. -/
def phase2Init (db : DB) (t : Nat) : P2State :=
  ⟨db, (p2InitPairs db t).map Prod.fst, [], 0, p2InitPairs db t, []⟩

/-- `phase2_expand_graph`: build the initial frontier, then run the loop. -/
def phase2 (w : World) (db : DB) (t : Nat) (m : Option Nat) (fuel : Nat) : P2State :=
  phase2Run w t m fuel (phase2Init db t)

/-- The set of account identifiers whose `crawled` flag is `false` in `db0`
and `true` in `db1` — the accounts that transitioned to crawled. -/
def transitioned (db0 db1 : DB) : Finset String :=
  ((db1.users.map Account.did).filter (fun d => isCrawled db1 d && !(isCrawled db0 d))).toFinset

/-- A bare connection-list entry (did and handle, no display name). -/
def fu (d h : String) : FUser := ⟨d, h, none⟩

/-- Scenario world for the end-to-end Phase 1 test: seed `S` follows
`{A, B}` and is followed by `{A, C}`, so `mutuals(S) = {A}`. -/
def w3 : World :=
  ⟨fun a => if a = "S" then some ⟨"S", "s", some "Sdisp", 2, 2, some "bio"⟩ else none,
   fun a => if a = "S" then ⟨[[fu "A" "a", fu "B" "b"]], none⟩ else ⟨[], none⟩,
   fun a => if a = "S" then ⟨[[fu "A" "a", fu "C" "c"]], none⟩ else ⟨[], none⟩⟩

/-- Scenario world in which the follow-list fetch for `S` raises on its very
first page request (so `get_all_follows` returns `[]`), while the profile
and follower-list fetches succeed. -/
def w6 : World :=
  ⟨fun a => if a = "S" then some ⟨"S", "s", none, 0, 0, none⟩ else none,
   fun a => if a = "S" then ⟨[[fu "A" "a"]], some 0⟩ else ⟨[], none⟩,
   fun a => if a = "S" then ⟨[[fu "A" "a"]], none⟩ else ⟨[], none⟩⟩

/-- Scenario world with a single crawlable account `S` and no connections. -/
def w8 : World :=
  ⟨fun a => if a = "S" then some ⟨"S", "s", none, 0, 0, none⟩ else none,
   fun _ => ⟨[], none⟩, fun _ => ⟨[], none⟩⟩

/-- Scenario world in which `X` is a mutual of both `S` and `P`: `S` has
mutuals `{P, X}` and `P` has mutuals `{X}`. -/
def w9 : World :=
  ⟨fun a => if a = "S" then some ⟨"S", "s", none, 0, 0, none⟩
            else if a = "P" then some ⟨"P", "p", none, 0, 0, none⟩ else none,
   fun a => if a = "S" then ⟨[[fu "P" "p", fu "X" "x"]], none⟩
            else if a = "P" then ⟨[[fu "X" "x"]], none⟩ else ⟨[], none⟩,
   fun a => if a = "S" then ⟨[[fu "P" "p", fu "X" "x"]], none⟩
            else if a = "P" then ⟨[[fu "X" "x"]], none⟩ else ⟨[], none⟩⟩

/-- An account row flagged both crawled and core member. -/
def coreAcct (d h : String) : Account := ⟨d, h, none, 0, 0, none, true, true⟩

/-- A store with three crawled core members `A`, `B`, `C` and an uncrawled
account `X` linked to all three of them. -/
def dbT : DB :=
  ⟨[coreAcct "A" "a", coreAcct "B" "b", coreAcct "C" "c", ⟨"X", "x", none, 0, 0, none, false, false⟩],
   [⟨"X", "x", "A", "a", false⟩, ⟨"X", "x", "B", "b", false⟩, ⟨"X", "x", "C", "c", false⟩]⟩

/-- Scenario world in which only `X` has a fetchable profile and every
connection list is empty. -/
def wT : World :=
  ⟨fun a => if a = "X" then some ⟨"X", "x", none, 0, 0, none⟩ else none,
   fun _ => ⟨[], none⟩, fun _ => ⟨[], none⟩⟩

/-- A world in which every profile fetch fails and every connection list is
empty. -/
def wNone : World := ⟨fun _ => none, fun _ => ⟨[], none⟩, fun _ => ⟨[], none⟩⟩

/-- A store holding one account `d` with follower count 500, following
count 10, and a non-empty description, as left by a first rich upsert. -/
def db5 : DB := addUser emptyDB "d" "h" (some "Name") 500 10 (some "bio")

/-! ## Storage-level lemmas -/

theorem find?_did_filter_out (l : List Account) (d : String) :
    (l.filter (fun u => !(u.did == d))).find? (fun u => u.did == d) = none := by
  apply List.find?_eq_none.mpr
  intro x hx
  simpa using (List.mem_filter.mp hx).2

theorem mergedRow_did (db : DB) (d h : String) (dn : Option String) (fc foc : Nat)
    (desc : Option String) : (mergedRow db d h dn fc foc desc).did = d := by
  unfold mergedRow
  cases findUser db d <;> rfl

theorem findUser_addUser_self (db : DB) (d h : String) (dn : Option String) (fc foc : Nat)
    (desc : Option String) :
    findUser (addUser db d h dn fc foc desc) d = some (mergedRow db d h dn fc foc desc) := by
  unfold findUser addUser
  rw [List.find?_append, find?_did_filter_out]
  have hd : ((mergedRow db d h dn fc foc desc).did == d) = true := by
    simp [mergedRow_did]
  simp [List.find?, hd]

theorem find?_did_filter_ne (l : List Account) (d x : String) (hx : x ≠ d) :
    (l.filter (fun u => !(u.did == d))).find? (fun u => u.did == x) =
      l.find? (fun u => u.did == x) := by
  induction l with
  | nil => rfl
  | cons u l ih =>
    by_cases hud : u.did = d
    · have h1 : (u.did == d) = true := by simp [hud]
      have h2 : (u.did == x) = false := by simp [hud]; exact fun e => hx e.symm
      simp [List.filter, h1, List.find?, h2, ih]
    · have h1 : (u.did == d) = false := by simp [hud]
      by_cases hux : u.did = x
      · have h2 : (u.did == x) = true := by simp [hux]
        simp [List.filter, h1, List.find?, h2]
      · have h2 : (u.did == x) = false := by simp [hux]
        simp [List.filter, h1, List.find?, h2, ih]

theorem findUser_addUser_ne (db : DB) (d h x : String) (dn : Option String) (fc foc : Nat)
    (desc : Option String) (hx : x ≠ d) :
    findUser (addUser db d h dn fc foc desc) x = findUser db x := by
  unfold findUser addUser
  rw [List.find?_append, find?_did_filter_ne _ _ _ hx]
  have hd : ((mergedRow db d h dn fc foc desc).did == x) = false := by
    simp [mergedRow_did]
    exact fun e => hx e.symm
  cases hfind : db.users.find? (fun u => u.did == x) with
  | none => simp [List.find?, hd]
  | some u => simp [hfind]

theorem isCrawled_addUser (db : DB) (d h x : String) (dn : Option String) (fc foc : Nat)
    (desc : Option String) :
    isCrawled (addUser db d h dn fc foc desc) x = isCrawled db x := by
  by_cases hx : x = d
  · subst hx
    rw [isCrawled, findUser_addUser_self]
    unfold mergedRow isCrawled
    cases findUser db x <;> rfl
  · unfold isCrawled
    rw [findUser_addUser_ne db d h x dn fc foc desc hx]

theorem isCrawled_addFollow (db : DB) (f fh g gh : String) (b : Bool) (x : String) :
    isCrawled (addFollow db f fh g gh b) x = isCrawled db x := by
  by_cases h : edgeExists db f g = true <;> simp [addFollow, h, isCrawled, findUser]

theorem find?_did_map (l : List Account) (f : Account → Account) (x : String)
    (hdid : ∀ u, (f u).did = u.did) :
    (l.map f).find? (fun u => u.did == x) = (l.find? (fun u => u.did == x)).map f := by
  rw [List.find?_map]
  have : ((fun u => u.did == x) ∘ f) = (fun u : Account => u.did == x) := by
    funext u
    simp [hdid]
  rw [this]

theorem isCrawled_markAsCrawled (db : DB) (c x : String) :
    isCrawled (markAsCrawled db c) x = if x = c then userExists db c else isCrawled db x := by
  have hdid : ∀ u : Account, ((fun u : Account =>
      if u.did = c then { u with crawled := true } else u) u).did = u.did := by
    intro u
    by_cases h : u.did = c <;> simp [h]
  unfold isCrawled markAsCrawled userExists findUser
  rw [find?_did_map _ _ _ hdid]
  cases hfind : db.users.find? (fun u => u.did == x) with
  | none =>
    by_cases hx : x = c
    · subst hx
      simp [hfind]
    · simp [hx]
  | some u =>
    have hux : u.did = x := by simpa using List.find?_some hfind
    by_cases hx : x = c
    · subst hx
      simp [hux, hfind]
    · have : ¬(u.did = c) := by rw [hux]; exact hx
      simp [this, hx]

theorem isCrawled_markAsMutualCore (db : DB) (c x : String) :
    isCrawled (markAsMutualCore db c) x = isCrawled db x := by
  have hdid : ∀ u : Account, ((fun u : Account =>
      if u.did = c then { u with isMutualCore := true } else u) u).did = u.did := by
    intro u
    by_cases h : u.did = c <;> simp [h]
  unfold isCrawled markAsMutualCore findUser
  rw [find?_did_map _ _ _ hdid]
  cases hfind : db.users.find? (fun u => u.did == x) with
  | none => simp
  | some u =>
    by_cases h : u.did = c <;> simp [h]

/-! ## Claim C4: duplicate directed edges are silent no-ops -/

/-- C4: once `record_edge` has stored the directed edge `(u, v)`, any later
`record_edge` call for the same ordered pair is a silent no-op regardless of
its `is_mutual` argument (the whole store is unchanged), so the stored
`is_mutual` value always equals the first value written — in particular
recording `(u, v, false)` and then `(u, v, true)` leaves `false` stored. -/
theorem record_edge_duplicate_noop :
    (∀ (db : DB) (f fh g gh : String) (b : Bool) (fh2 gh2 : String) (b2 : Bool),
      addFollow (addFollow db f fh g gh b) f fh2 g gh2 b2 = addFollow db f fh g gh b) ∧
    findEdge (addFollow (addFollow emptyDB "u" "uh" "v" "vh" false) "u" "uh2" "v" "vh2" true)
      "u" "v" = some ⟨"u", "uh", "v", "vh", false⟩ := by
  constructor
  · intro db f fh g gh b fh2 gh2 b2
    have key : ∀ X : DB, edgeExists X f g = true → addFollow X f fh2 g gh2 b2 = X := by
      intro X hX
      unfold addFollow
      rw [if_pos hX]
    by_cases h : edgeExists db f g = true
    · have h1 : addFollow db f fh g gh b = db := by
        unfold addFollow
        rw [if_pos h]
      rw [h1, key db h]
    · have h2 : edgeExists (addFollow db f fh g gh b) f g = true := by
        unfold addFollow
        rw [if_neg h]
        show (db.follows ++ [(⟨f, fh, g, gh, b⟩ : Edge)]).any
          (fun e => e.followerDid == f && e.followingDid == g) = true
        rw [List.any_append]
        simp
      rw [key _ h2]
  · decide

/-! ## Claim C10: store operations on unknown identifiers -/

/-- C10: for an identifier with no row in the `users` table, `is_crawled`
returns a non-true (falsy) result, and `mark_crawled` / `mark_core_member`
leave the store completely unchanged — they never create a row. -/
theorem unknown_id_store_ops (db : DB) (d : String) (h : findUser db d = none) :
    isCrawled db d = false ∧ markAsCrawled db d = db ∧ markAsMutualCore db d = db := by
  have hall : ∀ u ∈ db.users, ¬(u.did == d) = true := List.find?_eq_none.mp h
  refine ⟨?_, ?_, ?_⟩
  · unfold isCrawled
    rw [h]
  · unfold markAsCrawled
    have hcong : ∀ u ∈ db.users,
        (if u.did = d then { u with crawled := true } else u) = id u := by
      intro u hu
      have : ¬(u.did = d) := by simpa using hall u hu
      simp [this]
    rw [List.map_congr_left hcong, List.map_id]
  · unfold markAsMutualCore
    have hcong : ∀ u ∈ db.users,
        (if u.did = d then { u with isMutualCore := true } else u) = id u := by
      intro u hu
      have : ¬(u.did = d) := by simpa using hall u hu
      simp [this]
    rw [List.map_congr_left hcong, List.map_id]

/-- Witness for `unknown_id_store_ops` at a concrete store (`dbT` has no row
for `Z`). -/
theorem unknown_id_store_ops_witness :
    findUser dbT "Z" = none ∧
    (isCrawled dbT "Z" = false ∧ markAsCrawled dbT "Z" = dbT ∧ markAsMutualCore dbT "Z" = dbT) :=
  ⟨by decide, unknown_id_store_ops dbT "Z" (by decide)⟩

/-! ## Claim C5: upsert merge semantics -/

/-- C5 counterexample: `add_user` only protects a `None` incoming
description, not an empty one — upserting `description = ""` over a stored
non-empty description replaces it with the empty string, refuting "an
existing non-empty description ... is never replaced by an empty incoming
one".  (`db5` stores account `d` with description `"bio"`.) -/
theorem upsert_empty_overwrites_description :
    (findUser db5 "d").map Account.description = some (some "bio") ∧
    (findUser (addUser db5 "d" "h" (some "Name") 500 10 (some "")) "d").map Account.description
      = some (some "") := by decide

/-- C5 as amended: for an existing account, `add_user` preserves the
`crawled` and `core_member` flags untouched, a zero incoming count never
overwrites a positive stored count, and a `None` (absent) incoming
description or display name never overwrites the stored one.  (An empty
string, unlike `None`, does overwrite — see the counterexample.) -/
theorem upsert_merge_semantics (db : DB) (d h : String) (dn : Option String) (fc foc : Nat)
    (desc : Option String) (u : Account) (hu : findUser db d = some u) :
    ∃ u2, findUser (addUser db d h dn fc foc desc) d = some u2 ∧
      u2.crawled = u.crawled ∧ u2.isMutualCore = u.isMutualCore ∧
      (fc = 0 → 0 < u.followersCount → u2.followersCount = u.followersCount) ∧
      (foc = 0 → 0 < u.followsCount → u2.followsCount = u.followsCount) ∧
      (desc = none → u2.description = u.description) ∧
      (dn = none → u2.displayName = u.displayName) := by
  refine ⟨mergedRow db d h dn fc foc desc, findUser_addUser_self db d h dn fc foc desc, ?_⟩
  unfold mergedRow
  rw [hu]
  refine ⟨rfl, rfl, ?_, ?_, ?_, ?_⟩
  · intro h0 hpos
    simp [h0, hpos]
  · intro h0 hpos
    simp [h0, hpos]
  · intro h0
    subst h0
    cases hd : u.description <;> simp [hd]
  · intro h0
    subst h0
    cases hd : u.displayName <;> simp [hd]

/-- Witness for `upsert_merge_semantics`: re-upserting account `d` of `db5`
(stored follower count 500) with zero counts and absent optionals keeps the
stored data and flags. -/
theorem upsert_merge_semantics_witness :
    findUser db5 "d" = some ⟨"d", "h", some "Name", 500, 10, some "bio", false, false⟩ ∧
    (∃ u2, findUser (addUser db5 "d" "h2" none 0 0 none) "d" = some u2 ∧
      u2.crawled = false ∧ u2.isMutualCore = false ∧
      (0 = 0 → 0 < 500 → u2.followersCount = 500) ∧
      (0 = 0 → 0 < 10 → u2.followsCount = 10) ∧
      ((none : Option String) = none → u2.description = some "bio") ∧
      ((none : Option String) = none → u2.displayName = some "Name")) :=
  ⟨by decide,
   upsert_merge_semantics db5 "d" "h2" none 0 0 none
     ⟨"d", "h", some "Name", 500, 10, some "bio", false, false⟩ (by decide)⟩

/-! ## Claim C3: Phase 1 end-to-end scenario -/

/-- C3: a single Phase 1 step on seed `S` (follows `{A, B}`, followers
`{A, C}`) upserts exactly the accounts `S`, `A`, `B`, `C`; records exactly
the edges `(S→A, mutual)`, `(S→B, non-mutual)`, `(C→S, non-mutual)` with no
second edge for `A`; enqueues only `A`; and marks `S` both crawled and core
member. -/
theorem phase1_end_to_end_scenario :
    (phase1 w3 emptyDB "S" none 1).db.follows =
      [⟨"S", "s", "A", "a", true⟩, ⟨"S", "s", "B", "b", false⟩, ⟨"C", "c", "S", "s", false⟩] ∧
    ((phase1 w3 emptyDB "S" none 1).db.users.map Account.did).Perm ["S", "A", "B", "C"] ∧
    (phase1 w3 emptyDB "S" none 1).queue = ["A"] ∧
    isCrawled (phase1 w3 emptyDB "S" none 1).db "S" = true ∧
    isCore (phase1 w3 emptyDB "S" none 1).db "S" = true := by
  refine ⟨by decide, by decide, by decide, by decide, by decide⟩

/-! ## Claim C6 counterexample: connection-list failure does not abandon -/

/-- C6 counterexample: in `w6` the follow-list fetch for `S` raises on its
first page (`failsAt = some 0`, so `get_all_follows` returns `[]`), yet the
Phase 1 step for `S` still upserts `S`, records the follower edge `(A→S)`,
and marks `S` crawled — refuting "whenever the profile fetch or a
connection-list fetch fails, that account is abandoned with no store
mutation and is not marked crawled". -/
theorem phase1_connlist_failure_still_crawls :
    (w6.followsOf "S").failsAt = some 0 ∧
    (w6.followsOf "S").fetched = [] ∧
    isCrawled (phase1 w6 emptyDB "S" none 1).db "S" = true ∧
    userExists (phase1 w6 emptyDB "S" none 1).db "S" = true ∧
    (phase1 w6 emptyDB "S" none 1).db.follows = [⟨"A", "a", "S", "s", false⟩] := by
  refine ⟨by decide, by decide, by decide, by decide, by decide⟩

/-! ## Claim C8 counterexample: a zero budget is not enforced -/

/-- C8 counterexample: calling Phase 1 with `max_users = 0` does not bound
crawling by 0 — the Python truthiness test `if max_users and ...` treats 0
as "no limit", so one account still transitions to crawled, refuting the
claim at `N = 0`. -/
theorem budget_zero_not_enforced :
    isCrawled emptyDB "S" = false ∧
    isCrawled (phase1 w8 emptyDB "S" (some 0) 1).db "S" = true ∧
    (transitioned emptyDB (phase1 w8 emptyDB "S" (some 0) 1).db).card = 1 := by
  refine ⟨by decide, by decide, by decide⟩

/-! ## Claim C9 counterexample: Phase 1 frontier can hold duplicates -/

/-- C9 counterexample: in `w9`, `X` is a mutual of both `S` and `P`; after
the steps for `S` and `P` the Phase 1 frontier is `["X", "X"]` — the enqueue
guard checks only `processed` and the store's crawled flag, not current
queue membership, so the frontier is not duplicate-free. -/
theorem phase1_queue_duplicates :
    (phase1 w9 emptyDB "S" none 2).queue = ["X", "X"] ∧
    ¬ (phase1 w9 emptyDB "S" none 2).queue.Nodup := by
  refine ⟨by decide, by decide⟩

/-! ## Crawled-flag tracking through the phase bodies -/

theorem isCrawled_foldl {α : Type} (g : DB → α → DB) (l : List α) (db : DB) (x : String)
    (h : ∀ d a, isCrawled (g d a) x = isCrawled d x) :
    isCrawled (l.foldl g db) x = isCrawled db x := by
  induction l generalizing db with
  | nil => rfl
  | cons a l ih => rw [List.foldl_cons, ih, h]

theorem phase1Body_db (w : World) (db : DB) (current : String) (rest proc : List String)
    (log : List (String × String)) (p : Profile) :
    (phase1Body w db current rest proc log p).db =
      markAsMutualCore (markAsCrawled (phase1Db3 w db current p) current) current := rfl

theorem phase1Body_queue (w : World) (db : DB) (current : String) (rest proc : List String)
    (log : List (String × String)) (p : Profile) :
    (phase1Body w db current rest proc log p).queue =
      rest ++ phase1Enqueued w db current proc p := rfl

theorem phase1Body_processed (w : World) (db : DB) (current : String) (rest proc : List String)
    (log : List (String × String)) (p : Profile) :
    (phase1Body w db current rest proc log p).processed = proc ++ [current] := rfl

theorem phase1Body_enqLog (w : World) (db : DB) (current : String) (rest proc : List String)
    (log : List (String × String)) (p : Profile) :
    (phase1Body w db current rest proc log p).enqLog =
      log ++ (phase1Enqueued w db current proc p).map (fun x => (x, current)) := rfl

theorem isCrawled_phase1Db3 (w : World) (db : DB) (current : String) (p : Profile) (x : String) :
    isCrawled (phase1Db3 w db current p) x = isCrawled db x := by
  have h1 : ∀ (d : DB) (f : FUser),
      isCrawled (addFollow (addUser d f.did f.handle f.displayName 0 0 none)
        current p.handle f.did f.handle (decide (f.did ∈ mutualDids w current))) x =
        isCrawled d x := by
    intro d f
    rw [isCrawled_addFollow, isCrawled_addUser]
  have h2 : ∀ (d : DB) (f : FUser),
      isCrawled (if decide (f.did ∈ (w.followsOf current).fetched.map FUser.did) = true
          then addUser d f.did f.handle f.displayName 0 0 none
          else addFollow (addUser d f.did f.handle f.displayName 0 0 none)
            f.did f.handle current p.handle false) x = isCrawled d x := by
    intro d f
    by_cases hf : f.did ∈ (w.followsOf current).fetched.map FUser.did
    · simp [hf, isCrawled_addUser]
    · simp [hf, isCrawled_addFollow, isCrawled_addUser]
  show isCrawled ((w.followersOf current).fetched.foldl _ _) x = isCrawled db x
  rw [isCrawled_foldl _ _ _ _ h2, isCrawled_foldl _ _ _ _ h1, isCrawled_addUser]

theorem phase1Body_crawled_from (w : World) (db : DB) (current : String)
    (rest proc : List String) (log : List (String × String)) (p : Profile) (x : String)
    (hx : isCrawled (phase1Body w db current rest proc log p).db x = true) :
    isCrawled db x = true ∨ x = current := by
  by_cases hc : x = current
  · exact Or.inr hc
  · left
    rw [phase1Body_db, isCrawled_markAsMutualCore, isCrawled_markAsCrawled, if_neg hc,
      isCrawled_phase1Db3] at hx
    exact hx

/-! ## Phase 1 run invariants -/

theorem phase1Run_processed_mono (w : World) (m : Option Nat) :
    ∀ (fuel : Nat) (s : P1State) (y : String), y ∈ s.processed →
      y ∈ (phase1Run w m fuel s).processed := by
  intro fuel
  induction fuel with
  | zero =>
    intro s y hy
    simpa [phase1Run] using hy
  | succ fuel ih =>
    intro s y hy
    obtain ⟨db, q, proc, log⟩ := s
    cases q with
    | nil => simpa [phase1Run] using hy
    | cons current rest =>
      simp only [phase1Run]
      by_cases hb : budgetHit m proc.length = true
      · simpa [hb] using hy
      · by_cases hskip : current ∈ proc ∨ isCrawled db current = true
        · simpa [hb, hskip] using ih ⟨db, rest, proc, log⟩ y hy
        · cases hp : w.profile current with
          | none => simpa [hb, hskip, hp] using ih ⟨db, rest, proc, log⟩ y hy
          | some p =>
            have hy2 : y ∈ (phase1Body w db current rest proc log p).processed := by
              rw [phase1Body_processed]
              exact List.mem_append_left _ hy
            simpa [hb, hskip, hp] using ih (phase1Body w db current rest proc log p) y hy2

theorem phase1Run_processed_bound (w : World) (N : Nat) (hN : 1 ≤ N) :
    ∀ (fuel : Nat) (s : P1State), s.processed.length ≤ N →
      (phase1Run w (some N) fuel s).processed.length ≤ N := by
  intro fuel
  induction fuel with
  | zero =>
    intro s hs
    simpa [phase1Run] using hs
  | succ fuel ih =>
    intro s hs
    obtain ⟨db, q, proc, log⟩ := s
    cases q with
    | nil => simpa [phase1Run] using hs
    | cons current rest =>
      simp only [phase1Run]
      by_cases hb : budgetHit (some N) proc.length = true
      · simpa [hb] using hs
      · have hlt : proc.length < N := by
          simp [budgetHit] at hb
          omega
        by_cases hskip : current ∈ proc ∨ isCrawled db current = true
        · simpa [hb, hskip] using ih ⟨db, rest, proc, log⟩ hs
        · cases hp : w.profile current with
          | none => simpa [hb, hskip, hp] using ih ⟨db, rest, proc, log⟩ hs
          | some p =>
            have hs2 : (phase1Body w db current rest proc log p).processed.length ≤ N := by
              rw [phase1Body_processed]
              simp only [List.length_append, List.length_cons, List.length_nil]
              omega
            simpa [hb, hskip, hp] using ih (phase1Body w db current rest proc log p) hs2

theorem phase1Run_crawled_from (w : World) (m : Option Nat) :
    ∀ (fuel : Nat) (s : P1State) (x : String),
      isCrawled (phase1Run w m fuel s).db x = true →
      isCrawled s.db x = true ∨ x ∈ (phase1Run w m fuel s).processed := by
  intro fuel
  induction fuel with
  | zero =>
    intro s x hx
    left
    simpa [phase1Run] using hx
  | succ fuel ih =>
    intro s x hx
    obtain ⟨db, q, proc, log⟩ := s
    cases q with
    | nil =>
      left
      simpa [phase1Run] using hx
    | cons current rest =>
      simp only [phase1Run] at hx ⊢
      by_cases hb : budgetHit m proc.length = true
      · left
        simpa [hb] using hx
      · by_cases hskip : current ∈ proc ∨ isCrawled db current = true
        · simpa [hb, hskip] using ih ⟨db, rest, proc, log⟩ x (by simpa [hb, hskip] using hx)
        · cases hp : w.profile current with
          | none =>
            simpa [hb, hskip, hp] using ih ⟨db, rest, proc, log⟩ x
              (by simpa [hb, hskip, hp] using hx)
          | some p =>
            have hx2 : isCrawled (phase1Run w m fuel
                (phase1Body w db current rest proc log p)).db x = true := by
              simpa [hb, hskip, hp] using hx
            rcases ih (phase1Body w db current rest proc log p) x hx2 with hdb | hmem
            · rcases phase1Body_crawled_from w db current rest proc log p x hdb with h1 | h1
              · left
                exact h1
              · right
                subst h1
                have hxp : x ∈ (phase1Body w db x rest proc log p).processed := by
                  rw [phase1Body_processed]
                  exact List.mem_append_right _ (by simp)
                simpa [hb, hskip, hp] using
                  phase1Run_processed_mono w m fuel _ x hxp
            · right
              simpa [hb, hskip, hp] using hmem

/-! ## Phase 2 scan lemmas -/

theorem p2Scan_nil (db : DB) (proc : List String) (t : Nat)
    (acc : List String × List (String × Nat)) : p2Scan db proc t [] acc = acc := rfl

theorem p2Scan_cons (db : DB) (proc : List String) (t : Nat) (c : String) (l : List String)
    (acc : List String × List (String × Nat)) :
    p2Scan db proc t (c :: l) acc = p2Scan db proc t l (p2Step db proc t acc c) := rfl

theorem p2Step_cases (db : DB) (proc : List String) (t : Nat)
    (acc : List String × List (String × Nat)) (c : String) :
    p2Step db proc t acc c = acc ∨
    (¬ c ∈ acc.1 ∧ t ≤ coreCount db c ∧
      p2Step db proc t acc c = (acc.1 ++ [c], acc.2 ++ [(c, coreCount db c)])) := by
  by_cases h1 : c ∈ proc
  · left
    simp [p2Step, h1]
  · by_cases h2 : c ∈ acc.1
    · left
      simp [p2Step, h1, h2]
    · by_cases h3 : isCrawled db c = true
      · left
        simp [p2Step, h1, h2, h3]
      · by_cases h4 : t ≤ coreCount db c
        · right
          exact ⟨h2, h4, by simp [p2Step, h1, h2, h3, h4]⟩
        · left
          simp [p2Step, h1, h2, h3, h4]

theorem p2Step_log_mono (db : DB) (proc : List String) (t : Nat)
    (acc : List String × List (String × Nat)) (c : String) :
    ∀ e ∈ acc.2, e ∈ (p2Step db proc t acc c).2 := by
  intro e he
  rcases p2Step_cases db proc t acc c with h | ⟨_, _, h⟩ <;> rw [h]
  · exact he
  · exact List.mem_append_left _ he

theorem p2Step_log_new (db : DB) (proc : List String) (t : Nat)
    (acc : List String × List (String × Nat)) (c : String) :
    ∀ d n, (d, n) ∈ (p2Step db proc t acc c).2 → (d, n) ∈ acc.2 ∨ t ≤ n := by
  intro d n h
  rcases p2Step_cases db proc t acc c with he | ⟨_, ht, he⟩
  · rw [he] at h
    exact Or.inl h
  · rw [he] at h
    rcases List.mem_append.mp h with h2 | h2
    · exact Or.inl h2
    · right
      have : (d, n) = (c, coreCount db c) := by simpa using h2
      rw [Prod.mk.injEq] at this
      rw [this.2]
      exact ht

theorem p2Step_queue_char (db : DB) (proc : List String) (t : Nat)
    (acc : List String × List (String × Nat)) (c : String) :
    ∀ d, d ∈ (p2Step db proc t acc c).1 →
      d ∈ acc.1 ∨ ∃ n, t ≤ n ∧ (d, n) ∈ (p2Step db proc t acc c).2 := by
  intro d h
  rcases p2Step_cases db proc t acc c with he | ⟨_, ht, he⟩
  · rw [he] at h
    exact Or.inl h
  · rw [he] at h ⊢
    rcases List.mem_append.mp h with h2 | h2
    · exact Or.inl h2
    · have hdc : d = c := by simpa using h2
      subst hdc
      right
      exact ⟨coreCount db d, ht, List.mem_append_right _ (by simp)⟩

theorem p2Step_queue_nodup (db : DB) (proc : List String) (t : Nat)
    (acc : List String × List (String × Nat)) (c : String) (h : acc.1.Nodup) :
    (p2Step db proc t acc c).1.Nodup := by
  rcases p2Step_cases db proc t acc c with he | ⟨hc, _, he⟩ <;> rw [he]
  · exact h
  · simpa [List.nodup_append] using ⟨h, hc⟩

theorem p2Scan_log_mono (db : DB) (proc : List String) (t : Nat) :
    ∀ (conns : List String) (acc : List String × List (String × Nat)),
      ∀ e ∈ acc.2, e ∈ (p2Scan db proc t conns acc).2 := by
  intro conns
  induction conns with
  | nil =>
    intro acc e he
    rw [p2Scan_nil]
    exact he
  | cons c l ih =>
    intro acc e he
    rw [p2Scan_cons]
    exact ih _ e (p2Step_log_mono db proc t acc c e he)

theorem p2Scan_log_new (db : DB) (proc : List String) (t : Nat) :
    ∀ (conns : List String) (acc : List String × List (String × Nat)) (d : String) (n : Nat),
      (d, n) ∈ (p2Scan db proc t conns acc).2 → (d, n) ∈ acc.2 ∨ t ≤ n := by
  intro conns
  induction conns with
  | nil =>
    intro acc d n h
    rw [p2Scan_nil] at h
    exact Or.inl h
  | cons c l ih =>
    intro acc d n h
    rw [p2Scan_cons] at h
    rcases ih _ d n h with h2 | h2
    · exact p2Step_log_new db proc t acc c d n h2
    · exact Or.inr h2

theorem p2Scan_queue_char (db : DB) (proc : List String) (t : Nat) :
    ∀ (conns : List String) (acc : List String × List (String × Nat)) (d : String),
      d ∈ (p2Scan db proc t conns acc).1 →
      d ∈ acc.1 ∨ ∃ n, t ≤ n ∧ (d, n) ∈ (p2Scan db proc t conns acc).2 := by
  intro conns
  induction conns with
  | nil =>
    intro acc d h
    rw [p2Scan_nil] at h
    exact Or.inl h
  | cons c l ih =>
    intro acc d h
    rw [p2Scan_cons] at h ⊢
    rcases ih _ d h with h2 | h2
    · rcases p2Step_queue_char db proc t acc c d h2 with h3 | ⟨n, hn, h3⟩
      · exact Or.inl h3
      · exact Or.inr ⟨n, hn, p2Scan_log_mono db proc t l _ _ h3⟩
    · exact Or.inr h2

theorem p2Scan_queue_nodup (db : DB) (proc : List String) (t : Nat) :
    ∀ (conns : List String) (acc : List String × List (String × Nat)),
      acc.1.Nodup → (p2Scan db proc t conns acc).1.Nodup := by
  intro conns
  induction conns with
  | nil =>
    intro acc h
    rw [p2Scan_nil]
    exact h
  | cons c l ih =>
    intro acc h
    rw [p2Scan_cons]
    exact ih _ (p2Step_queue_nodup db proc t acc c h)

/-! ## Phase 2 body and run invariants -/

theorem phase2Body_db (w : World) (db : DB) (current : String) (rest proc : List String)
    (cc : Nat) (log : List (String × Nat)) (clog : List String) (t : Nat) (p : Profile) :
    (phase2Body w db current rest proc cc log clog t p).db =
      markAsCrawled (phase2Db3 w db current p) current := rfl

theorem phase2Body_queue (w : World) (db : DB) (current : String) (rest proc : List String)
    (cc : Nat) (log : List (String × Nat)) (clog : List String) (t : Nat) (p : Profile) :
    (phase2Body w db current rest proc cc log clog t p).queue =
      (p2Scan (phase2Db3 w db current p) proc t (phase2Conns w current) (rest, log)).1 := rfl

theorem phase2Body_processed (w : World) (db : DB) (current : String) (rest proc : List String)
    (cc : Nat) (log : List (String × Nat)) (clog : List String) (t : Nat) (p : Profile) :
    (phase2Body w db current rest proc cc log clog t p).processed = proc ++ [current] := rfl

theorem phase2Body_cc (w : World) (db : DB) (current : String) (rest proc : List String)
    (cc : Nat) (log : List (String × Nat)) (clog : List String) (t : Nat) (p : Profile) :
    (phase2Body w db current rest proc cc log clog t p).crawledCount = cc + 1 := rfl

theorem phase2Body_enqLog (w : World) (db : DB) (current : String) (rest proc : List String)
    (cc : Nat) (log : List (String × Nat)) (clog : List String) (t : Nat) (p : Profile) :
    (phase2Body w db current rest proc cc log clog t p).enqLog =
      (p2Scan (phase2Db3 w db current p) proc t (phase2Conns w current) (rest, log)).2 := rfl

theorem phase2Body_crawledLog (w : World) (db : DB) (current : String) (rest proc : List String)
    (cc : Nat) (log : List (String × Nat)) (clog : List String) (t : Nat) (p : Profile) :
    (phase2Body w db current rest proc cc log clog t p).crawledLog = clog ++ [current] := rfl

theorem isCrawled_phase2Db3 (w : World) (db : DB) (current : String) (p : Profile) (x : String) :
    isCrawled (phase2Db3 w db current p) x = isCrawled db x := by
  have h1 : ∀ (d : DB) (f : FUser),
      isCrawled (addFollow (if userExists d f.did = true then d
          else addUser d f.did f.handle f.displayName 0 0 none)
        current p.handle f.did f.handle false) x = isCrawled d x := by
    intro d f
    rw [isCrawled_addFollow]
    by_cases h : userExists d f.did = true
    · simp [h]
    · simp [h, isCrawled_addUser]
  have h2 : ∀ (d : DB) (f : FUser),
      isCrawled (addFollow (if userExists d f.did = true then d
          else addUser d f.did f.handle f.displayName 0 0 none)
        f.did f.handle current p.handle false) x = isCrawled d x := by
    intro d f
    rw [isCrawled_addFollow]
    by_cases h : userExists d f.did = true
    · simp [h]
    · simp [h, isCrawled_addUser]
  show isCrawled ((w.followersOf current).fetched.foldl _ _) x = isCrawled db x
  rw [isCrawled_foldl _ _ _ _ h2, isCrawled_foldl _ _ _ _ h1, isCrawled_addUser]

theorem phase2Body_crawled_from (w : World) (db : DB) (current : String)
    (rest proc : List String) (cc : Nat) (log : List (String × Nat)) (clog : List String)
    (t : Nat) (p : Profile) (x : String)
    (hx : isCrawled (phase2Body w db current rest proc cc log clog t p).db x = true) :
    isCrawled db x = true ∨ x = current := by
  by_cases hc : x = current
  · exact Or.inr hc
  · left
    rw [phase2Body_db, isCrawled_markAsCrawled, if_neg hc, isCrawled_phase2Db3] at hx
    exact hx

theorem phase2Run_processed_mono (w : World) (t : Nat) (m : Option Nat) :
    ∀ (fuel : Nat) (s : P2State) (y : String), y ∈ s.processed →
      y ∈ (phase2Run w t m fuel s).processed := by
  intro fuel
  induction fuel with
  | zero =>
    intro s y hy
    simpa [phase2Run] using hy
  | succ fuel ih =>
    intro s y hy
    obtain ⟨db, q, proc, cc, log, clog⟩ := s
    cases q with
    | nil => simpa [phase2Run] using hy
    | cons current rest =>
      simp only [phase2Run]
      by_cases hb : budgetHit m cc = true
      · simpa [hb] using hy
      · by_cases hskip : current ∈ proc ∨ isCrawled db current = true
        · simpa [hb, hskip] using ih ⟨db, rest, proc, cc, log, clog⟩ y hy
        · cases hp : w.profile current with
          | none =>
            simpa [hb, hskip, hp] using
              ih ⟨db, rest, proc ++ [current], cc, log, clog⟩ y (List.mem_append_left _ hy)
          | some p =>
            have hy2 : y ∈ (phase2Body w db current rest proc cc log clog t p).processed := by
              rw [phase2Body_processed]
              exact List.mem_append_left _ hy
            simpa [hb, hskip, hp] using ih (phase2Body w db current rest proc cc log clog t p) y hy2

theorem phase2Run_crawledLog_mono (w : World) (t : Nat) (m : Option Nat) :
    ∀ (fuel : Nat) (s : P2State) (y : String), y ∈ s.crawledLog →
      y ∈ (phase2Run w t m fuel s).crawledLog := by
  intro fuel
  induction fuel with
  | zero =>
    intro s y hy
    simpa [phase2Run] using hy
  | succ fuel ih =>
    intro s y hy
    obtain ⟨db, q, proc, cc, log, clog⟩ := s
    cases q with
    | nil => simpa [phase2Run] using hy
    | cons current rest =>
      simp only [phase2Run]
      by_cases hb : budgetHit m cc = true
      · simpa [hb] using hy
      · by_cases hskip : current ∈ proc ∨ isCrawled db current = true
        · simpa [hb, hskip] using ih ⟨db, rest, proc, cc, log, clog⟩ y hy
        · cases hp : w.profile current with
          | none =>
            simpa [hb, hskip, hp] using ih ⟨db, rest, proc ++ [current], cc, log, clog⟩ y hy
          | some p =>
            have hy2 : y ∈ (phase2Body w db current rest proc cc log clog t p).crawledLog := by
              rw [phase2Body_crawledLog]
              exact List.mem_append_left _ hy
            simpa [hb, hskip, hp] using ih (phase2Body w db current rest proc cc log clog t p) y hy2

theorem phase2Run_enqLog_mono (w : World) (t : Nat) (m : Option Nat) :
    ∀ (fuel : Nat) (s : P2State) (e : String × Nat), e ∈ s.enqLog →
      e ∈ (phase2Run w t m fuel s).enqLog := by
  intro fuel
  induction fuel with
  | zero =>
    intro s e he
    simpa [phase2Run] using he
  | succ fuel ih =>
    intro s e he
    obtain ⟨db, q, proc, cc, log, clog⟩ := s
    cases q with
    | nil => simpa [phase2Run] using he
    | cons current rest =>
      simp only [phase2Run]
      by_cases hb : budgetHit m cc = true
      · simpa [hb] using he
      · by_cases hskip : current ∈ proc ∨ isCrawled db current = true
        · simpa [hb, hskip] using ih ⟨db, rest, proc, cc, log, clog⟩ e he
        · cases hp : w.profile current with
          | none =>
            simpa [hb, hskip, hp] using ih ⟨db, rest, proc ++ [current], cc, log, clog⟩ e he
          | some p =>
            have he2 : e ∈ (phase2Body w db current rest proc cc log clog t p).enqLog := by
              rw [phase2Body_enqLog]
              exact p2Scan_log_mono _ _ _ _ (rest, log) e he
            simpa [hb, hskip, hp] using ih (phase2Body w db current rest proc cc log clog t p) e he2

theorem phase2Run_no_recrawl (w : World) (t : Nat) (m : Option Nat) :
    ∀ (fuel : Nat) (s : P2State) (c : String), c ∈ s.processed → c ∉ s.crawledLog →
      c ∉ (phase2Run w t m fuel s).crawledLog := by
  intro fuel
  induction fuel with
  | zero =>
    intro s c hc hcl
    simpa [phase2Run] using hcl
  | succ fuel ih =>
    intro s c hc hcl
    obtain ⟨db, q, proc, cc, log, clog⟩ := s
    cases q with
    | nil => simpa [phase2Run] using hcl
    | cons current rest =>
      simp only [phase2Run]
      by_cases hb : budgetHit m cc = true
      · simpa [hb] using hcl
      · by_cases hskip : current ∈ proc ∨ isCrawled db current = true
        · simpa [hb, hskip] using ih ⟨db, rest, proc, cc, log, clog⟩ c hc hcl
        · have hcur : current ∉ proc := fun h => hskip (Or.inl h)
          have hne : c ≠ current := fun h => hcur (h ▸ hc)
          cases hp : w.profile current with
          | none =>
            simpa [hb, hskip, hp] using
              ih ⟨db, rest, proc ++ [current], cc, log, clog⟩ c (List.mem_append_left _ hc) hcl
          | some p =>
            have hcl2 : c ∉ (phase2Body w db current rest proc cc log clog t p).crawledLog := by
              rw [phase2Body_crawledLog]
              intro hmem
              rcases List.mem_append.mp hmem with h2 | h2
              · exact hcl h2
              · exact hne (by simpa using h2)
            have hc2 : c ∈ (phase2Body w db current rest proc cc log clog t p).processed := by
              rw [phase2Body_processed]
              exact List.mem_append_left _ hc
            simpa [hb, hskip, hp] using
              ih (phase2Body w db current rest proc cc log clog t p) c hc2 hcl2

theorem phase2Run_count_bound (w : World) (t N : Nat) (hN : 1 ≤ N) :
    ∀ (fuel : Nat) (s : P2State), s.crawledLog.length ≤ s.crawledCount → s.crawledCount ≤ N →
      (phase2Run w t (some N) fuel s).crawledLog.length ≤ N := by
  intro fuel
  induction fuel with
  | zero =>
    intro s h1 h2
    simp only [phase2Run]
    omega
  | succ fuel ih =>
    intro s h1 h2
    obtain ⟨db, q, proc, cc, log, clog⟩ := s
    cases q with
    | nil =>
      simp only [phase2Run]
      simp only at h1 h2
      omega
    | cons current rest =>
      simp only [phase2Run]
      simp only at h1 h2
      by_cases hb : budgetHit (some N) cc = true
      · simp only [hb, if_true]
        omega
      · have hlt : cc < N := by
          simp [budgetHit] at hb
          omega
        by_cases hskip : current ∈ proc ∨ isCrawled db current = true
        · simpa [hb, hskip] using ih ⟨db, rest, proc, cc, log, clog⟩ h1 h2
        · cases hp : w.profile current with
          | none =>
            simpa [hb, hskip, hp] using ih ⟨db, rest, proc ++ [current], cc, log, clog⟩ h1 h2
          | some p =>
            have h1b : (phase2Body w db current rest proc cc log clog t p).crawledLog.length ≤
                (phase2Body w db current rest proc cc log clog t p).crawledCount := by
              rw [phase2Body_crawledLog, phase2Body_cc]
              simp only [List.length_append, List.length_cons, List.length_nil]
              omega
            have h2b : (phase2Body w db current rest proc cc log clog t p).crawledCount ≤ N := by
              rw [phase2Body_cc]
              omega
            simpa [hb, hskip, hp] using
              ih (phase2Body w db current rest proc cc log clog t p) h1b h2b

theorem phase2Run_crawled_from (w : World) (t : Nat) (m : Option Nat) :
    ∀ (fuel : Nat) (s : P2State) (x : String),
      isCrawled (phase2Run w t m fuel s).db x = true →
      isCrawled s.db x = true ∨ x ∈ (phase2Run w t m fuel s).crawledLog := by
  intro fuel
  induction fuel with
  | zero =>
    intro s x hx
    left
    simpa [phase2Run] using hx
  | succ fuel ih =>
    intro s x hx
    obtain ⟨db, q, proc, cc, log, clog⟩ := s
    cases q with
    | nil =>
      left
      simpa [phase2Run] using hx
    | cons current rest =>
      simp only [phase2Run] at hx ⊢
      by_cases hb : budgetHit m cc = true
      · left
        simpa [hb] using hx
      · by_cases hskip : current ∈ proc ∨ isCrawled db current = true
        · simpa [hb, hskip] using ih ⟨db, rest, proc, cc, log, clog⟩ x
            (by simpa [hb, hskip] using hx)
        · cases hp : w.profile current with
          | none =>
            simpa [hb, hskip, hp] using ih ⟨db, rest, proc ++ [current], cc, log, clog⟩ x
              (by simpa [hb, hskip, hp] using hx)
          | some p =>
            have hx2 : isCrawled (phase2Run w t m fuel
                (phase2Body w db current rest proc cc log clog t p)).db x = true := by
              simpa [hb, hskip, hp] using hx
            rcases ih (phase2Body w db current rest proc cc log clog t p) x hx2 with hdb | hmem
            · rcases phase2Body_crawled_from w db current rest proc cc log clog t p x hdb
                with h1 | h1
              · left
                exact h1
              · right
                subst h1
                have hxc : x ∈ (phase2Body w db x rest proc cc log clog t p).crawledLog := by
                  rw [phase2Body_crawledLog]
                  exact List.mem_append_right _ (by simp)
                simpa [hb, hskip, hp] using
                  phase2Run_crawledLog_mono w t m fuel _ x hxc
            · right
              simpa [hb, hskip, hp] using hmem

theorem phase2Run_thresh_inv (w : World) (t : Nat) (m : Option Nat) :
    ∀ (fuel : Nat) (s : P2State),
      (∀ d ∈ s.queue, ∃ n, t ≤ n ∧ (d, n) ∈ s.enqLog) →
      (∀ d ∈ s.crawledLog, ∃ n, t ≤ n ∧ (d, n) ∈ s.enqLog) →
      ∀ d ∈ (phase2Run w t m fuel s).crawledLog,
        ∃ n, t ≤ n ∧ (d, n) ∈ (phase2Run w t m fuel s).enqLog := by
  intro fuel
  induction fuel with
  | zero =>
    intro s hq hc d hd
    simp only [phase2Run] at hd ⊢
    exact hc d hd
  | succ fuel ih =>
    intro s hq hc d hd
    obtain ⟨db, q, proc, cc, log, clog⟩ := s
    cases q with
    | nil =>
      simp only [phase2Run] at hd ⊢
      exact hc d hd
    | cons current rest =>
      simp only [phase2Run] at hd ⊢
      by_cases hb : budgetHit m cc = true
      · rw [if_pos hb] at hd ⊢
        exact hc d hd
      · rw [if_neg hb] at hd ⊢
        have hqr : ∀ x ∈ rest, ∃ n, t ≤ n ∧ (x, n) ∈ log := by
          intro x hx
          exact hq x (List.mem_cons_of_mem _ hx)
        by_cases hskip : current ∈ proc ∨ isCrawled db current = true
        · rw [if_pos hskip] at hd ⊢
          exact ih ⟨db, rest, proc, cc, log, clog⟩ hqr hc d hd
        · rw [if_neg hskip] at hd ⊢
          cases hp : w.profile current with
          | none =>
            simp only [hp] at hd ⊢
            exact ih ⟨db, rest, proc ++ [current], cc, log, clog⟩ hqr hc d hd
          | some p =>
            simp only [hp] at hd ⊢
            have hqb : ∀ x ∈ (phase2Body w db current rest proc cc log clog t p).queue,
                ∃ n, t ≤ n ∧
                  (x, n) ∈ (phase2Body w db current rest proc cc log clog t p).enqLog := by
              intro x hx
              rw [phase2Body_queue] at hx
              rw [phase2Body_enqLog]
              rcases p2Scan_queue_char _ _ _ _ (rest, log) x hx with h2 | h2
              · obtain ⟨n, hn, hmem⟩ := hqr x h2
                exact ⟨n, hn, p2Scan_log_mono _ _ _ _ (rest, log) _ hmem⟩
              · exact h2
            have hcb : ∀ x ∈ (phase2Body w db current rest proc cc log clog t p).crawledLog,
                ∃ n, t ≤ n ∧
                  (x, n) ∈ (phase2Body w db current rest proc cc log clog t p).enqLog := by
              intro x hx
              rw [phase2Body_crawledLog] at hx
              rw [phase2Body_enqLog]
              rcases List.mem_append.mp hx with h2 | h2
              · obtain ⟨n, hn, hmem⟩ := hc x h2
                exact ⟨n, hn, p2Scan_log_mono _ _ _ _ (rest, log) _ hmem⟩
              · have hxc : x = current := by simpa using h2
                subst hxc
                obtain ⟨n, hn, hmem⟩ := hq x (by simp)
                exact ⟨n, hn, p2Scan_log_mono _ _ _ _ (rest, log) _ hmem⟩
            exact ih (phase2Body w db current rest proc cc log clog t p) hqb hcb d hd

theorem phase2Run_queue_nodup (w : World) (t : Nat) (m : Option Nat) :
    ∀ (fuel : Nat) (s : P2State), s.queue.Nodup → (phase2Run w t m fuel s).queue.Nodup := by
  intro fuel
  induction fuel with
  | zero =>
    intro s h
    simpa [phase2Run] using h
  | succ fuel ih =>
    intro s h
    obtain ⟨db, q, proc, cc, log, clog⟩ := s
    cases q with
    | nil =>
      simp only [phase2Run]
      exact h
    | cons current rest =>
      simp only [phase2Run]
      have hrest : rest.Nodup := (List.nodup_cons.mp h).2
      by_cases hb : budgetHit m cc = true
      · simpa [hb] using h
      · by_cases hskip : current ∈ proc ∨ isCrawled db current = true
        · simpa [hb, hskip] using ih ⟨db, rest, proc, cc, log, clog⟩ hrest
        · cases hp : w.profile current with
          | none =>
            simpa [hb, hskip, hp] using ih ⟨db, rest, proc ++ [current], cc, log, clog⟩ hrest
          | some p =>
            have hbody : (phase2Body w db current rest proc cc log clog t p).queue.Nodup := by
              rw [phase2Body_queue]
              exact p2Scan_queue_nodup _ _ _ _ (rest, log) hrest
            simpa [hb, hskip, hp] using ih (phase2Body w db current rest proc cc log clog t p) hbody

/-! ## Initial Phase 2 frontier lemmas -/

theorem p2InitPairs_thresh (db : DB) (t : Nat) :
    ∀ d n, (d, n) ∈ p2InitPairs db t → t ≤ n := by
  intro d n h
  rw [p2InitPairs, List.mem_filterMap] at h
  obtain ⟨dh, _, hdh⟩ := h
  by_cases hc : t ≤ coreCount db dh.1
  · simp only [hc, if_true] at hdh
    have : dh.1 = d ∧ coreCount db dh.1 = n := by simpa using hdh
    rw [← this.2]
    exact hc
  · simp only [hc, if_false] at hdh
    exact absurd hdh (by simp)

theorem p2InitPairs_queue (db : DB) (t : Nat) :
    ∀ d ∈ (p2InitPairs db t).map Prod.fst, ∃ n, t ≤ n ∧ (d, n) ∈ p2InitPairs db t := by
  intro d hd
  rw [List.mem_map] at hd
  obtain ⟨⟨d1, n⟩, hmem, heq⟩ := hd
  have hd1 : d1 = d := heq
  subst hd1
  exact ⟨n, p2InitPairs_thresh db t d1 n hmem, hmem⟩

theorem filterMap_fst_sublist (g : String × String → Option (String × Nat))
    (hg : ∀ a b, g a = some b → b.1 = a.1) (l : List (String × String)) :
    ((l.filterMap g).map Prod.fst).Sublist (l.map Prod.fst) := by
  induction l with
  | nil => simp
  | cons a l ih =>
    rw [List.filterMap_cons]
    cases hga : g a with
    | none =>
      rw [List.map_cons]
      exact ih.cons _
    | some b =>
      rw [List.map_cons, List.map_cons, hg a b hga]
      exact ih.cons₂ _

theorem p2Init_queue_nodup (db : DB) (t : Nat) (h : (db.users.map Account.did).Nodup) :
    ((p2InitPairs db t).map Prod.fst).Nodup := by
  have h1 : ((p2InitPairs db t).map Prod.fst).Sublist ((getUncrawledUsers db).map Prod.fst) := by
    apply filterMap_fst_sublist
    intro a b hab
    by_cases hc : t ≤ coreCount db a.1
    · simp only [hc, if_true] at hab
      have : (a.1, coreCount db a.1) = b := by simpa using hab
      rw [← this]
    · simp only [hc, if_false] at hab
      exact absurd hab (by simp)
  have h2 : (getUncrawledUsers db).map Prod.fst =
      (db.users.filter (fun u => !u.crawled)).map Account.did := by
    unfold getUncrawledUsers
    rw [List.map_map]
    rfl
  have h3 : ((db.users.filter (fun u => !u.crawled)).map Account.did).Sublist
      (db.users.map Account.did) :=
    List.Sublist.map _ (List.filter_sublist _)
  rw [h2] at h1
  exact (h1.trans h3).nodup h

theorem phase2Run_log_thresh (w : World) (t : Nat) (m : Option Nat) :
    ∀ (fuel : Nat) (s : P2State), (∀ d n, (d, n) ∈ s.enqLog → t ≤ n) →
      ∀ d n, (d, n) ∈ (phase2Run w t m fuel s).enqLog → t ≤ n := by
  intro fuel
  induction fuel with
  | zero =>
    intro s hs d n hd
    simp only [phase2Run] at hd
    exact hs d n hd
  | succ fuel ih =>
    intro s hs d n hd
    obtain ⟨db, q, proc, cc, log, clog⟩ := s
    cases q with
    | nil =>
      simp only [phase2Run] at hd
      exact hs d n hd
    | cons current rest =>
      simp only [phase2Run] at hd
      by_cases hb : budgetHit m cc = true
      · rw [if_pos hb] at hd
        exact hs d n hd
      · rw [if_neg hb] at hd
        by_cases hskip : current ∈ proc ∨ isCrawled db current = true
        · rw [if_pos hskip] at hd
          exact ih ⟨db, rest, proc, cc, log, clog⟩ hs d n hd
        · rw [if_neg hskip] at hd
          cases hp : w.profile current with
          | none =>
            simp only [hp] at hd
            exact ih ⟨db, rest, proc ++ [current], cc, log, clog⟩ hs d n hd
          | some p =>
            simp only [hp] at hd
            have hs2 : ∀ d n,
                (d, n) ∈ (phase2Body w db current rest proc cc log clog t p).enqLog → t ≤ n := by
              intro d n hmem
              rw [phase2Body_enqLog] at hmem
              rcases p2Scan_log_new _ _ _ _ (rest, log) d n hmem with h2 | h2
              · exact hs d n h2
              · exact h2
            exact ih (phase2Body w db current rest proc cc log clog t p) hs2 d n hd

theorem phase1Run_enq_inv (w : World) (m : Option Nat) :
    ∀ (fuel : Nat) (s : P1State),
      (∀ e ∈ s.enqLog, e.1 ∈ mutualDids w e.2 ∧ e.2 ∈ s.processed) →
      ∀ e ∈ (phase1Run w m fuel s).enqLog,
        e.1 ∈ mutualDids w e.2 ∧ e.2 ∈ (phase1Run w m fuel s).processed := by
  intro fuel
  induction fuel with
  | zero =>
    intro s hs e he
    simp only [phase1Run] at he ⊢
    exact hs e he
  | succ fuel ih =>
    intro s hs e he
    obtain ⟨db, q, proc, log⟩ := s
    cases q with
    | nil =>
      simp only [phase1Run] at he ⊢
      exact hs e he
    | cons current rest =>
      simp only [phase1Run] at he ⊢
      by_cases hb : budgetHit m proc.length = true
      · rw [if_pos hb] at he ⊢
        exact hs e he
      · rw [if_neg hb] at he ⊢
        by_cases hskip : current ∈ proc ∨ isCrawled db current = true
        · rw [if_pos hskip] at he ⊢
          exact ih ⟨db, rest, proc, log⟩ hs e he
        · rw [if_neg hskip] at he ⊢
          cases hp : w.profile current with
          | none =>
            simp only [hp] at he ⊢
            exact ih ⟨db, rest, proc, log⟩ hs e he
          | some p =>
            simp only [hp] at he ⊢
            have hs2 : ∀ e ∈ (phase1Body w db current rest proc log p).enqLog,
                e.1 ∈ mutualDids w e.2 ∧
                  e.2 ∈ (phase1Body w db current rest proc log p).processed := by
              intro e hmem
              rw [phase1Body_enqLog] at hmem
              rw [phase1Body_processed]
              rcases List.mem_append.mp hmem with h2 | h2
              · obtain ⟨hm, hpr⟩ := hs e h2
                exact ⟨hm, List.mem_append_left _ hpr⟩
              · rw [List.mem_map] at h2
                obtain ⟨x, hx, hxe⟩ := h2
                have hxm : x ∈ mutualDids w current := (List.mem_filter.mp hx).1
                rw [← hxe]
                exact ⟨hxm, List.mem_append_right _ (by simp)⟩
            exact ih (phase1Body w db current rest proc log p) hs2 e he

/-! ## Claim C2: Phase 1 enqueues only mutuals of crawled accounts -/

/-- C2: every identifier appended to the Phase 1 frontier after the seed
was appended, during the step for some account `x`, out of the mutual
intersection computed for `x` (`mutualDids w x`, the follow-set dids
intersected with the follower-set dids), and that `x` completes its step
and is in `processed` — the accounts crawled this run.  Non-mutual
connections are never enqueued. -/
theorem phase1_enqueues_only_mutuals (w : World) (db : DB) (seed : String)
    (m : Option Nat) (fuel : Nat) :
    ∀ e ∈ (phase1 w db seed m fuel).enqLog,
      e.1 ∈ mutualDids w e.2 ∧ e.2 ∈ (phase1 w db seed m fuel).processed := by
  apply phase1Run_enq_inv w m fuel ⟨db, [seed], [], []⟩
  intro e he
  exact absurd he (by simp)

/-- Witness for `phase1_enqueues_only_mutuals`: in the `w3` scenario the
only post-seed enqueue is `A`, appended during the step for `S`, and
indeed `A ∈ mutualDids w3 S` and `S` is processed. -/
theorem phase1_enqueues_only_mutuals_witness :
    "A" ∈ mutualDids w3 "S" ∧ "S" ∈ (phase1 w3 emptyDB "S" none 1).processed :=
  phase1_enqueues_only_mutuals w3 emptyDB "S" none 1 ("A", "S") (by decide)

/-! ## Claim C1: Phase 2 crawls only threshold-qualified accounts -/

/-- C1: every enqueue decision Phase 2 makes (initial frontier scan and
BFS candidate scan alike) logs the core-connection count computed at that
decision, and that count is at least the threshold; and every account the
run crawls (enters `crawledLog`, i.e. is marked crawled and consumes
budget) was enqueued at some decision with such a count.  Hence Phase 2
never crawls an account whose core-connection count was below the
threshold at its enqueue decision. -/
theorem phase2_crawls_only_threshold_qualified (w : World) (db : DB) (t : Nat)
    (m : Option Nat) (fuel : Nat) :
    (∀ d n, (d, n) ∈ (phase2 w db t m fuel).enqLog → t ≤ n) ∧
    (∀ d ∈ (phase2 w db t m fuel).crawledLog,
      ∃ n, t ≤ n ∧ (d, n) ∈ (phase2 w db t m fuel).enqLog) := by
  constructor
  · exact phase2Run_log_thresh w t m fuel (phase2Init db t) (p2InitPairs_thresh db t)
  · apply phase2Run_thresh_inv w t m fuel (phase2Init db t) (p2InitPairs_queue db t)
    intro d hd
    exact absurd hd (by simp [phase2Init])

/-- Witness for `phase2_crawls_only_threshold_qualified`: in the `wT`/`dbT`
scenario, `X` (3 core connections, threshold 3) is crawled and its logged
enqueue count meets the threshold. -/
theorem phase2_crawls_only_threshold_qualified_witness :
    3 ≤ 3 ∧ (∃ n, 3 ≤ n ∧ ("X", n) ∈ (phase2 wT dbT 3 none 1).enqLog) :=
  ⟨(phase2_crawls_only_threshold_qualified wT dbT 3 none 1).1 "X" 3 (by decide),
   (phase2_crawls_only_threshold_qualified wT dbT 3 none 1).2 "X" (by decide)⟩

/-! ## Claim C6 as amended: Phase 1 profile-fetch failure -/

/-- C6 as amended: in Phase 1, when the profile fetch for a dequeued
account fails, that dequeue performs no store mutation whatsoever — the
account is not upserted, no edges are recorded, it is not marked crawled
(remaining eligible for a future run) and it is not added to `processed` —
and the loop simply continues with the rest of the queue.  (A
connection-list fetch failure, by contrast, does not abandon the account:
the pages fetched before the failure are used and the account is still
marked crawled — see the counterexample.  And since a profile-failed
account is not added to `processed`, it can be re-enqueued as a later
account's mutual and fetched again within the same run.) -/
theorem phase1_profile_failure_skip (w : World) (m : Option Nat) (fuel : Nat) (db : DB)
    (rest proc : List String) (log : List (String × String)) (c : String)
    (hb : budgetHit m proc.length = false) (hcp : c ∉ proc) (hcr : isCrawled db c = false)
    (hp : w.profile c = none) :
    phase1Run w m (fuel + 1) ⟨db, c :: rest, proc, log⟩ =
      phase1Run w m fuel ⟨db, rest, proc, log⟩ := by
  have h1 : ¬(budgetHit m proc.length = true) := by simp [hb]
  have h2 : ¬(c ∈ proc ∨ isCrawled db c = true) := by
    rintro (h | h)
    · exact hcp h
    · exact absurd h (by simp [hcr])
  simp only [phase1Run, hp]
  rw [if_neg h1, if_neg h2]

/-- Witness for `phase1_profile_failure_skip`: with every profile fetch
failing, the step for `S` leaves the state untouched apart from popping the
queue. -/
theorem phase1_profile_failure_skip_witness :
    budgetHit none 0 = false ∧ "S" ∉ ([] : List String) ∧ isCrawled emptyDB "S" = false ∧
    wNone.profile "S" = none ∧
    phase1Run wNone none 1 ⟨emptyDB, ["S"], [], []⟩ =
      phase1Run wNone none 0 ⟨emptyDB, [], [], []⟩ :=
  ⟨by decide, by decide, by decide, rfl,
   phase1_profile_failure_skip wNone none 0 emptyDB [] [] [] "S" (by decide) (by decide)
     (by decide) rfl⟩

/-! ## Claim C7: Phase 2 profile-fetch failure -/

/-- C7: in Phase 2, when the profile fetch for a dequeued account fails,
the account is added to the in-run `processed` set and the loop continues
with the store completely unmodified — in particular its persistent
crawled flag is untouched, so it stays re-crawlable in a future run — and,
being processed, it is never crawled later in this run (its slot in the
run is consumed). -/
theorem phase2_profile_failure_processed (w : World) (t : Nat) (m : Option Nat) (fuel : Nat)
    (db : DB) (rest proc : List String) (cc : Nat) (log : List (String × Nat))
    (clog : List String) (c : String)
    (hb : budgetHit m cc = false) (hcp : c ∉ proc) (hcr : isCrawled db c = false)
    (hp : w.profile c = none) (hcl : c ∉ clog) :
    phase2Run w t m (fuel + 1) ⟨db, c :: rest, proc, cc, log, clog⟩ =
      phase2Run w t m fuel ⟨db, rest, proc ++ [c], cc, log, clog⟩ ∧
    c ∉ (phase2Run w t m fuel ⟨db, rest, proc ++ [c], cc, log, clog⟩).crawledLog := by
  constructor
  · have h1 : ¬(budgetHit m cc = true) := by simp [hb]
    have h2 : ¬(c ∈ proc ∨ isCrawled db c = true) := by
      rintro (h | h)
      · exact hcp h
      · exact absurd h (by simp [hcr])
    simp only [phase2Run, hp]
    rw [if_neg h1, if_neg h2]
  · exact phase2Run_no_recrawl w t m fuel ⟨db, rest, proc ++ [c], cc, log, clog⟩ c
      (List.mem_append_right _ (by simp)) hcl

/-- Witness for `phase2_profile_failure_processed` at a concrete state. -/
theorem phase2_profile_failure_processed_witness :
    budgetHit none 0 = false ∧ "S" ∉ ([] : List String) ∧ isCrawled emptyDB "S" = false ∧
    wNone.profile "S" = none ∧ "S" ∉ ([] : List String) ∧
    (phase2Run wNone 3 none 1 ⟨emptyDB, ["S"], [], 0, [], []⟩ =
       phase2Run wNone 3 none 0 ⟨emptyDB, [], ["S"], 0, [], []⟩ ∧
     "S" ∉ (phase2Run wNone 3 none 0 ⟨emptyDB, [], ["S"], 0, [], []⟩).crawledLog) :=
  ⟨by decide, by decide, by decide, rfl, by decide,
   phase2_profile_failure_processed wNone 3 none 0 emptyDB [] [] 0 [] [] "S" (by decide)
     (by decide) (by decide) rfl (by decide)⟩

/-! ## Claim C8 as amended: positive budgets are enforced -/

theorem mem_transitioned (db0 db1 : DB) (d : String) :
    d ∈ transitioned db0 db1 ↔
      d ∈ db1.users.map Account.did ∧ isCrawled db1 d = true ∧ isCrawled db0 d = false := by
  unfold transitioned
  rw [List.mem_toFinset, List.mem_filter]
  simp [Bool.not_eq_true']

/-- C8 as amended: for every positive crawl budget `N` (`max_users = N ≥ 1`),
the number of accounts whose crawled flag transitions from false to true
during a phase invocation is at most `N`, in Phase 1 and in Phase 2 alike.
(For `N = 0` the Python truthiness test disables the budget entirely — see
the counterexample.) -/
theorem budget_bound (w : World) (db : DB) (seed : String) (t N fuel1 fuel2 : Nat)
    (hN : 1 ≤ N) :
    (transitioned db (phase1 w db seed (some N) fuel1).db).card ≤ N ∧
    (transitioned db (phase2 w db t (some N) fuel2).db).card ≤ N := by
  constructor
  · have hsub : transitioned db (phase1 w db seed (some N) fuel1).db ⊆
        (phase1 w db seed (some N) fuel1).processed.toFinset := by
      intro d hd
      rw [mem_transitioned] at hd
      obtain ⟨-, h1, h0⟩ := hd
      rcases phase1Run_crawled_from w (some N) fuel1 ⟨db, [seed], [], []⟩ d h1 with h | h
      · have h2 : isCrawled db d = true := h
        rw [h2] at h0
        exact absurd h0 (by simp)
      · exact List.mem_toFinset.mpr h
    have hc := Finset.card_le_card hsub
    have hl := List.toFinset_card_le (phase1 w db seed (some N) fuel1).processed
    have hbound := phase1Run_processed_bound w N hN fuel1 ⟨db, [seed], [], []⟩ (by simp)
    have hbound2 : (phase1 w db seed (some N) fuel1).processed.length ≤ N := hbound
    omega
  · have hsub : transitioned db (phase2 w db t (some N) fuel2).db ⊆
        (phase2 w db t (some N) fuel2).crawledLog.toFinset := by
      intro d hd
      rw [mem_transitioned] at hd
      obtain ⟨-, h1, h0⟩ := hd
      rcases phase2Run_crawled_from w t (some N) fuel2 (phase2Init db t) d h1 with h | h
      · have h2 : isCrawled db d = true := h
        rw [h2] at h0
        exact absurd h0 (by simp)
      · exact List.mem_toFinset.mpr h
    have hc := Finset.card_le_card hsub
    have hl := List.toFinset_card_le (phase2 w db t (some N) fuel2).crawledLog
    have hbound := phase2Run_count_bound w t N hN fuel2 (phase2Init db t)
      (by simp [phase2Init]) (by simp [phase2Init])
    have hbound2 : (phase2 w db t (some N) fuel2).crawledLog.length ≤ N := hbound
    omega

/-- Witness for `budget_bound` at `N = 1` in the `w8` world. -/
theorem budget_bound_witness :
    1 ≤ 1 ∧
    ((transitioned emptyDB (phase1 w8 emptyDB "S" (some 1) 1).db).card ≤ 1 ∧
     (transitioned emptyDB (phase2 w8 emptyDB 3 (some 1) 1).db).card ≤ 1) :=
  ⟨le_refl 1, budget_bound w8 emptyDB "S" 3 1 1 1 (le_refl 1)⟩

/-! ## Claim C9 as amended: the Phase 2 frontier is duplicate-free -/

/-- C9 as amended: in Phase 2 an identifier is appended only after checking
the `processed` set, current queue membership, and the crawled flag, so —
for a store whose `users` table has unique dids, as the `did` primary key
guarantees — the Phase 2 frontier never contains duplicates at any point of
a run.  (Phase 1's enqueue guard does not check queue membership, and its
frontier can hold duplicates — see the counterexample; the duplicate is
discarded at dequeue by the `processed` check.) -/
theorem phase2_queue_duplicate_free (w : World) (db : DB) (t : Nat) (m : Option Nat)
    (fuel : Nat) (hdb : (db.users.map Account.did).Nodup) :
    (phase2 w db t m fuel).queue.Nodup := by
  apply phase2Run_queue_nodup w t m fuel (phase2Init db t)
  exact p2Init_queue_nodup db t hdb

/-- Witness for `phase2_queue_duplicate_free` on the concrete store `dbT`. -/
theorem phase2_queue_duplicate_free_witness :
    (dbT.users.map Account.did).Nodup ∧ (phase2 wT dbT 3 none 1).queue.Nodup :=
  ⟨by decide, phase2_queue_duplicate_free wT dbT 3 none 1 (by decide)⟩
